import Mathlib

/-!
# Verification of the 4×4×4 tic-tac-toe game engine

A shallow embedding of the pure game-state engine of the repository
(`src/lib/gameLogic.ts`, together with the replay/skip helpers of
`src/components/Game.tsx`), with theorems checking the stated properties
of the engine: line generation, win detection, threat detection,
draw detection, move/undo round trips, no-op idempotence, replay
reconstruction and the board/history invariant.

Machine state is modelled as plain Lean structures; the 4×4×4 board is a
total function on `Fin 4` triples (the TypeScript arrays are fixed-size,
index-in-range accesses only).  The impure `Date.now()` timestamp is
passed in as an explicit `now : Nat` argument.
-/

set_option maxRecDepth 4000

inductive Player where
  | X : Player
  | O : Player
deriving DecidableEq, Repr

/-- `state.currentPlayer === 'X' ? 'O' : 'X'` -/
def Player.other : Player → Player
  | .X => .O
  | .O => .X

abbrev CellValue := Option Player

inductive GameStatus where
  | playing : GameStatus
  | win : GameStatus
  | draw : GameStatus
deriving DecidableEq, Repr

structure Position where
  x : Nat
  y : Nat
  z : Nat
deriving DecidableEq, Repr

/-- The 4×4×4 board: `CellValue[][][]` indexed as `board[x][y][z]`. -/
abbrev Board := Fin 4 → Fin 4 → Fin 4 → CellValue

inductive MoveType where
  | move : MoveType
  | skip : MoveType
deriving DecidableEq, Repr

inductive SkipReason where
  | timeout : SkipReason
deriving DecidableEq, Repr

/-- A history entry (`Move` in `gameLogic.ts`): acting player, optional
position (absent for skips), timestamp and optional kind tag. -/
structure Move where
  player : Player
  position : Option Position
  timestamp : Nat
  type : Option MoveType
  reason : Option SkipReason
deriving DecidableEq, Repr

structure Threat where
  player : Player
  line : List Position
  emptyCell : Position
deriving DecidableEq, Repr

structure WinningLine where
  positions : List Position
  winner : Player
deriving DecidableEq, Repr

/-- `ExtendedGameState` of `gameLogic.ts` (the base `GameState` fields
plus history, threats and last move). -/
structure ExtendedGameState where
  board : Board
  currentPlayer : Player
  status : GameStatus
  winningLine : Option WinningLine
  moveCount : Nat
  moveHistory : List Move
  threats : List Threat
  lastMovePosition : Option Position
deriving DecidableEq

/-- Reading `board[p.x][p.y][p.z]` (all accesses in the engine are in
range; out-of-range reads are modelled as empty). -/
def getCell (b : Board) (p : Position) : CellValue :=
  if hx : p.x < 4 then
    if hy : p.y < 4 then
      if hz : p.z < 4 then b ⟨p.x, hx⟩ ⟨p.y, hy⟩ ⟨p.z, hz⟩
      else none
    else none
  else none

/-- The functional board update of `makeMove`: map every cell, replacing
exactly the one whose indices match the target position. -/
def setCell (b : Board) (p : Position) (pl : Player) : Board :=
  fun i j k =>
    if (i : Nat) = p.x ∧ (j : Nat) = p.y ∧ (k : Nat) = p.z then some pl
    else b i j k

/-- `createEmptyBoard` -/
def createEmptyBoard : Board := fun _ _ _ => none

/-- `createInitialState` -/
def createInitialState : ExtendedGameState where
  board := createEmptyBoard
  currentPlayer := Player.X
  status := GameStatus.playing
  winningLine := none
  moveCount := 0
  moveHistory := []
  threats := []
  lastMovePosition := none

/-- `generateAllWinningLines`: rows, columns, pillars, per-layer
diagonals in the XY / XZ / YZ plane families, then space diagonals,
in exactly the generation order of the source. -/
def generateAllWinningLines : List (List Position) :=
  ((List.range 4).flatMap fun y => (List.range 4).map fun z =>
      (List.range 4).map fun x => Position.mk x y z)
  ++ ((List.range 4).flatMap fun x => (List.range 4).map fun z =>
      (List.range 4).map fun y => Position.mk x y z)
  ++ ((List.range 4).flatMap fun x => (List.range 4).map fun y =>
      (List.range 4).map fun z => Position.mk x y z)
  ++ ((List.range 4).flatMap fun z =>
      [(List.range 4).map fun i => Position.mk i i z,
       (List.range 4).map fun i => Position.mk i (3 - i) z])
  ++ ((List.range 4).flatMap fun y =>
      [(List.range 4).map fun i => Position.mk i y i,
       (List.range 4).map fun i => Position.mk i y (3 - i)])
  ++ ((List.range 4).flatMap fun x =>
      [(List.range 4).map fun i => Position.mk x i i,
       (List.range 4).map fun i => Position.mk x i (3 - i)])
  ++ [(List.range 4).map fun i => Position.mk i i i,
      (List.range 4).map fun i => Position.mk (3 - i) i i,
      (List.range 4).map fun i => Position.mk i (3 - i) i,
      (List.range 4).map fun i => Position.mk i i (3 - i)]

/-- `ALL_WINNING_LINES`, the precomputed module-level table. -/
def ALL_WINNING_LINES : List (List Position) := generateAllWinningLines

/-- `checkLine`: the first cell must be non-empty and every later cell
must hold the same value; returns the owning player on success. -/
def checkLine (b : Board) (line : List Position) : Option Player :=
  match line with
  | [] => none
  | p0 :: rest =>
    match getCell b p0 with
    | none => none
    | some pl =>
      if rest.all fun q => decide (getCell b q = some pl) then some pl
      else none

/-- The search loop of `checkWinner` over a list of candidate lines. -/
def findWinningLine (b : Board) : List (List Position) → Option WinningLine
  | [] => none
  | l :: ls =>
    match checkLine b l with
    | some pl => some ⟨l, pl⟩
    | none => findWinningLine b ls

/-- `checkWinner` -/
def checkWinner (b : Board) : Option WinningLine :=
  findWinningLine b ALL_WINNING_LINES

/-- Number of cells of `line` holding player `pl`'s mark (the
`xCount` / `oCount` accumulators of `detectThreats`). -/
def countMarks (b : Board) (line : List Position) (pl : Player) : Nat :=
  line.countP fun q => decide (getCell b q = some pl)

/-- Number of empty cells of `line`. -/
def countEmpty (b : Board) (line : List Position) : Nat :=
  line.countP fun q => decide (getCell b q = none)

/-- The `emptyCell` accumulator of `detectThreats`: last empty cell of
the line, if any. -/
def lastEmpty (b : Board) (line : List Position) : Option Position :=
  line.foldl (fun acc q => if getCell b q = none then some q else acc) none

/-- Per-line body of `detectThreats`: emit a threat when one player
holds exactly 3 cells, the other 0, and an empty cell exists. -/
def lineThreats (b : Board) (line : List Position) : List Threat :=
  let xCount := countMarks b line Player.X
  let oCount := countMarks b line Player.O
  match lastEmpty b line with
  | some e =>
    if xCount = 3 ∧ oCount = 0 then [⟨Player.X, line, e⟩]
    else if oCount = 3 ∧ xCount = 0 then [⟨Player.O, line, e⟩]
    else []
  | none => []

/-- `detectThreats` -/
def detectThreats (b : Board) : List Threat :=
  ALL_WINNING_LINES.flatMap (lineThreats b)

/-- `isBoardFull`: every cell non-empty. -/
def isBoardFull (b : Board) : Bool :=
  decide (∀ i j k : Fin 4, b i j k ≠ none)

/-- `makeMove` (the impure `Date.now()` is the explicit `now`). -/
def makeMove (state : ExtendedGameState) (position : Position) (now : Nat) :
    ExtendedGameState :=
  if state.status ≠ GameStatus.playing ∨ getCell state.board position ≠ none then
    state
  else
    let newBoard := setCell state.board position state.currentPlayer
    let newMove : Move :=
      ⟨state.currentPlayer, some position, now, some MoveType.move, none⟩
    let winningLine := checkWinner newBoard
    let moveCount := state.moveCount + 1
    { board := newBoard
      currentPlayer := state.currentPlayer.other
      status :=
        match winningLine with
        | some _ => GameStatus.win
        | none => if moveCount = 64 then GameStatus.draw else GameStatus.playing
      winningLine := winningLine
      moveCount := moveCount
      moveHistory := state.moveHistory ++ [newMove]
      threats :=
        match winningLine with
        | some _ => []
        | none => detectThreats newBoard
      lastMovePosition := some position }

/-- The history filter used by `undoMove` and by the replay code of
`Game.tsx`: keep entries that are not skips and carry a position. -/
def appliedMoves (history : List Move) : List Move :=
  history.filter fun m =>
    decide (m.type ≠ some MoveType.skip) && m.position.isSome

/-- One step of the board-rebuild loop: `newBoard[x][y][z] = move.player`
(entries without a position are skipped). -/
def writeMove (b : Board) (m : Move) : Board :=
  match m.position with
  | some pos => setCell b pos m.player
  | none => b

/-- Rebuild a board by replaying moves onto `b`. -/
def applyMoves (b : Board) (moves : List Move) : Board :=
  moves.foldl writeMove b

/-- The board-rebuild of `undoMove`: replay onto an empty board. -/
def replayBoard (moves : List Move) : Board :=
  applyMoves createEmptyBoard moves

/-- `undoMove` -/
def undoMove (state : ExtendedGameState) : ExtendedGameState :=
  if state.moveHistory = [] then state
  else if state.status = GameStatus.win then state
  else
    let newHistory := state.moveHistory.dropLast
    let appliedList := appliedMoves newHistory
    let newBoard := replayBoard appliedList
    let lastMove := appliedList.getLast?
    { board := newBoard
      currentPlayer :=
        match lastMove with
        | some m => m.player.other
        | none => Player.X
      status := GameStatus.playing
      winningLine := none
      moveCount := appliedList.length
      moveHistory := newHistory
      threats := detectThreats newBoard
      lastMovePosition :=
        match lastMove with
        | some m => m.position
        | none => none }

/-- `getTotalWinningLines` -/
def getTotalWinningLines : Nat := ALL_WINNING_LINES.length

/-- The timeout handler of `Game.tsx`: when still playing, flip the turn
and append a skip entry for the skipped player. -/
def skipTurn (state : ExtendedGameState) (now : Nat) : ExtendedGameState :=
  if state.status ≠ GameStatus.playing then state
  else
    { state with
      currentPlayer := state.currentPlayer.other
      moveHistory := state.moveHistory ++
        [⟨state.currentPlayer, none, now, some MoveType.skip,
          some SkipReason.timeout⟩] }

/-- `applyRecordedMove` of `Game.tsx`: replay a recorded move, forcing
the acting player from the record. -/
def applyRecordedMove (state : ExtendedGameState) (m : Move) :
    ExtendedGameState :=
  match m.position with
  | none => state
  | some pos => makeMove { state with currentPlayer := m.player } pos 0

/-- `buildStateFromMoves` of `Game.tsx`: apply the first `count`
recorded moves starting from the initial state. -/
def buildStateFromMoves (recorded : List Move) (count : Nat) :
    ExtendedGameState :=
  (recorded.take count).foldl applyRecordedMove createInitialState

/-- The set of non-empty cells of a board (spec-side notion used to
state the board/history invariant and draw detection). -/
def nonEmptyCells (b : Board) : Finset (Fin 4 × Fin 4 × Fin 4) :=
  Finset.univ.filter fun t => b t.1 t.2.1 t.2.2 ≠ none

/-- Number of non-empty cells of a board. -/
def countNonEmpty (b : Board) : Nat := (nonEmptyCells b).card

/-- C2: `generateAllWinningLines` produces exactly 76 lines, each of 4
pairwise-distinct in-range positions, no two lines equal as unordered
collections of positions, and `getTotalWinningLines` returns 76. -/
theorem generateAllWinningLines_spec :
    generateAllWinningLines.length = 76
    ∧ (∀ l ∈ generateAllWinningLines,
        l.length = 4 ∧ l.Nodup ∧ ∀ p ∈ l, p.x < 4 ∧ p.y < 4 ∧ p.z < 4)
    ∧ List.Pairwise (fun l₁ l₂ => ¬ l₁.Perm l₂) generateAllWinningLines
    ∧ getTotalWinningLines = 76 := by
  refine ⟨by decide, by decide, by decide, by decide⟩

/-! ## Basic lemmas about the state transitions -/

lemma makeMove_blocked (s : ExtendedGameState) (p : Position) (now : Nat)
    (h : s.status ≠ GameStatus.playing ∨ getCell s.board p ≠ none) :
    makeMove s p now = s := by
  unfold makeMove
  rw [if_pos h]

lemma makeMove_accepted (s : ExtendedGameState) (p : Position) (now : Nat)
    (hstat : s.status = GameStatus.playing)
    (hempty : getCell s.board p = none) :
    makeMove s p now =
      { board := setCell s.board p s.currentPlayer
        currentPlayer := s.currentPlayer.other
        status :=
          match checkWinner (setCell s.board p s.currentPlayer) with
          | some _ => GameStatus.win
          | none =>
            if s.moveCount + 1 = 64 then GameStatus.draw else GameStatus.playing
        winningLine := checkWinner (setCell s.board p s.currentPlayer)
        moveCount := s.moveCount + 1
        moveHistory := s.moveHistory ++
          [⟨s.currentPlayer, some p, now, some MoveType.move, none⟩]
        threats :=
          match checkWinner (setCell s.board p s.currentPlayer) with
          | some _ => []
          | none => detectThreats (setCell s.board p s.currentPlayer)
        lastMovePosition := some p } := by
  unfold makeMove
  rw [if_neg (by simp [hstat, hempty])]

lemma undoMove_emptyHistory (s : ExtendedGameState) (h : s.moveHistory = []) :
    undoMove s = s := by
  unfold undoMove
  rw [if_pos h]

lemma undoMove_winStatus (s : ExtendedGameState)
    (h : s.status = GameStatus.win) : undoMove s = s := by
  unfold undoMove
  by_cases hh : s.moveHistory = []
  · rw [if_pos hh]
  · rw [if_neg hh, if_pos h]

lemma undoMove_active (s : ExtendedGameState) (h1 : s.moveHistory ≠ [])
    (h2 : s.status ≠ GameStatus.win) :
    undoMove s =
      { board := replayBoard (appliedMoves s.moveHistory.dropLast)
        currentPlayer :=
          match (appliedMoves s.moveHistory.dropLast).getLast? with
          | some m => m.player.other
          | none => Player.X
        status := GameStatus.playing
        winningLine := none
        moveCount := (appliedMoves s.moveHistory.dropLast).length
        moveHistory := s.moveHistory.dropLast
        threats := detectThreats (replayBoard (appliedMoves s.moveHistory.dropLast))
        lastMovePosition :=
          match (appliedMoves s.moveHistory.dropLast).getLast? with
          | some m => m.position
          | none => none } := by
  unfold undoMove
  rw [if_neg h1, if_neg h2]

lemma position_eq_iff (p q : Position) :
    q = p ↔ q.x = p.x ∧ q.y = p.y ∧ q.z = p.z := by
  cases p
  cases q
  simp [Position.mk.injEq]

lemma getCell_setCell (b : Board) (p : Position) (pl : Player)
    (q : Position) (hqx : q.x < 4) (hqy : q.y < 4) (hqz : q.z < 4) :
    getCell (setCell b p pl) q = if q = p then some pl else getCell b q := by
  simp only [getCell, setCell, dif_pos hqx, dif_pos hqy, dif_pos hqz,
    position_eq_iff]

/-- C6: `makeMove` on an occupied cell or when the status is not
`playing` returns the state unchanged; `undoMove` on empty history or on
a `win` state returns the state unchanged. -/
theorem noop_idempotence :
    (∀ (s : ExtendedGameState) (p : Position) (now : Nat),
        s.status ≠ GameStatus.playing ∨ getCell s.board p ≠ none →
        makeMove s p now = s)
    ∧ (∀ s : ExtendedGameState, s.moveHistory = [] → undoMove s = s)
    ∧ (∀ s : ExtendedGameState, s.status = GameStatus.win → undoMove s = s) :=
  ⟨makeMove_blocked, undoMove_emptyHistory, undoMove_winStatus⟩

/-- A concrete won game: X completes the row y = 0, z = 0 while O plays
three cells of the line y = 1, z = 1. -/
def winDemoState : ExtendedGameState :=
  makeMove (makeMove (makeMove (makeMove (makeMove (makeMove (makeMove
    createInitialState ⟨0, 0, 0⟩ 0) ⟨0, 1, 1⟩ 1) ⟨1, 0, 0⟩ 2) ⟨1, 1, 1⟩ 3)
    ⟨2, 0, 0⟩ 4) ⟨2, 1, 1⟩ 5) ⟨3, 0, 0⟩ 6

/-- Witness for C6 at concrete inputs: a move on the occupied cell
(0,0,0), an undo of the empty initial history, and an undo of a won
game are all no-ops. -/
theorem noop_idempotence_witness :
    makeMove (makeMove createInitialState ⟨0, 0, 0⟩ 0) ⟨0, 0, 0⟩ 5
      = makeMove createInitialState ⟨0, 0, 0⟩ 0
    ∧ undoMove createInitialState = createInitialState
    ∧ undoMove winDemoState = winDemoState :=
  ⟨noop_idempotence.1 _ _ 5 (Or.inr (by decide)),
   noop_idempotence.2.1 _ (by decide),
   noop_idempotence.2.2 _ (by decide)⟩

/-- C10: an accepted move writes the acting player's mark at the target
position and leaves every other cell of the board unchanged. -/
theorem makeMove_frame (s : ExtendedGameState) (p : Position) (now : Nat)
    (hstat : s.status = GameStatus.playing)
    (hx : p.x < 4) (hy : p.y < 4) (hz : p.z < 4)
    (hempty : getCell s.board p = none) :
    getCell (makeMove s p now).board p = some s.currentPlayer
    ∧ ∀ q : Position, q.x < 4 → q.y < 4 → q.z < 4 → q ≠ p →
        getCell (makeMove s p now).board q = getCell s.board q := by
  rw [makeMove_accepted s p now hstat hempty]
  constructor
  · rw [getCell_setCell s.board p s.currentPlayer p hx hy hz, if_pos rfl]
  · intro q hqx hqy hqz hne
    rw [getCell_setCell s.board p s.currentPlayer q hqx hqy hqz, if_neg hne]

/-- Witness for C10: the first move of a game marks (0,0,0) for X and
leaves the cell (1,2,3) untouched. -/
theorem makeMove_frame_witness :
    getCell (makeMove createInitialState ⟨0, 0, 0⟩ 0).board ⟨0, 0, 0⟩
      = some Player.X
    ∧ getCell (makeMove createInitialState ⟨0, 0, 0⟩ 0).board ⟨1, 2, 3⟩
      = getCell createInitialState.board ⟨1, 2, 3⟩ :=
  ⟨(makeMove_frame createInitialState ⟨0, 0, 0⟩ 0 (by decide) (by decide)
      (by decide) (by decide) (by decide)).1,
   (makeMove_frame createInitialState ⟨0, 0, 0⟩ 0 (by decide) (by decide)
      (by decide) (by decide) (by decide)).2 ⟨1, 2, 3⟩ (by decide) (by decide)
      (by decide) (by decide)⟩

/-! ## Counting non-empty cells -/

lemma countNonEmpty_setCell (b : Board) (p : Position) (pl : Player)
    (hx : p.x < 4) (hy : p.y < 4) (hz : p.z < 4)
    (he : getCell b p = none) :
    countNonEmpty (setCell b p pl) = countNonEmpty b + 1 := by
  have hb : b ⟨p.x, hx⟩ ⟨p.y, hy⟩ ⟨p.z, hz⟩ = none := by
    simpa [getCell, dif_pos hx, dif_pos hy, dif_pos hz] using he
  have hset : nonEmptyCells (setCell b p pl)
      = insert (⟨⟨p.x, hx⟩, ⟨p.y, hy⟩, ⟨p.z, hz⟩⟩ : Fin 4 × Fin 4 × Fin 4)
          (nonEmptyCells b) := by
    ext t
    by_cases hc : t = (⟨⟨p.x, hx⟩, ⟨p.y, hy⟩, ⟨p.z, hz⟩⟩ : Fin 4 × Fin 4 × Fin 4)
    · subst hc
      simp [nonEmptyCells, setCell]
    · have hcond : ¬ ((t.1 : Nat) = p.x ∧ (t.2.1 : Nat) = p.y ∧ (t.2.2 : Nat) = p.z) := by
        intro hco
        apply hc
        obtain ⟨h1, h2, h3⟩ := hco
        have e1 : t.1 = (⟨p.x, hx⟩ : Fin 4) := Fin.ext h1
        have e2 : t.2.1 = (⟨p.y, hy⟩ : Fin 4) := Fin.ext h2
        have e3 : t.2.2 = (⟨p.z, hz⟩ : Fin 4) := Fin.ext h3
        calc t = (t.1, t.2.1, t.2.2) := rfl
          _ = _ := by rw [e1, e2, e3]
      simp [nonEmptyCells, setCell, hc, hcond]
  have hnotmem : (⟨⟨p.x, hx⟩, ⟨p.y, hy⟩, ⟨p.z, hz⟩⟩ : Fin 4 × Fin 4 × Fin 4)
      ∉ nonEmptyCells b := by
    simp [nonEmptyCells, hb]
  unfold countNonEmpty
  rw [hset, Finset.card_insert_of_not_mem hnotmem]

lemma isBoardFull_iff_countNonEmpty (b : Board) :
    isBoardFull b = true ↔ countNonEmpty b = 64 := by
  have hcard : Fintype.card (Fin 4 × Fin 4 × Fin 4) = 64 := by
    simp
  constructor
  · intro h
    have hall : ∀ i j k : Fin 4, b i j k ≠ none := of_decide_eq_true h
    have : nonEmptyCells b = Finset.univ := by
      apply Finset.eq_univ_iff_forall.mpr
      intro t
      simp [nonEmptyCells, hall t.1 t.2.1 t.2.2]
    unfold countNonEmpty
    rw [this, Finset.card_univ, hcard]
  · intro h
    have huniv : nonEmptyCells b = Finset.univ := by
      apply Finset.eq_univ_of_card
      rw [hcard]
      exact h
    apply decide_eq_true
    intro i j k
    have := Finset.eq_univ_iff_forall.mp huniv ⟨i, j, k⟩
    simpa [nonEmptyCells] using this

/-- C4: when a 64th mark is placed (63 marks on the board, move count
63, an empty in-range target, game in progress), the resulting status is
`draw` exactly when the resulting board has no winning line, a winning
placement yields `win` (never `draw`), and the resulting board is full. -/
theorem makeMove_lastCell_draw_iff (s : ExtendedGameState) (p : Position)
    (now : Nat)
    (hstat : s.status = GameStatus.playing)
    (hx : p.x < 4) (hy : p.y < 4) (hz : p.z < 4)
    (hempty : getCell s.board p = none)
    (hcount : s.moveCount = 63)
    (hcells : countNonEmpty s.board = 63) :
    ((makeMove s p now).status = GameStatus.draw ↔
      checkWinner (makeMove s p now).board = none)
    ∧ (checkWinner (makeMove s p now).board ≠ none →
      (makeMove s p now).status = GameStatus.win)
    ∧ isBoardFull (makeMove s p now).board = true := by
  rw [makeMove_accepted s p now hstat hempty]
  dsimp only
  have hfull : isBoardFull (setCell s.board p s.currentPlayer) = true := by
    rw [isBoardFull_iff_countNonEmpty,
      countNonEmpty_setCell s.board p s.currentPlayer hx hy hz hempty, hcells]
  cases hw : checkWinner (setCell s.board p s.currentPlayer) with
  | some w => exact ⟨by simp, fun _ => rfl, hfull⟩
  | none =>
    refine ⟨by simp [hcount], fun hcontra => absurd rfl hcontra, hfull⟩

/-- Bit pattern of a full drawn board: cell (x,y,z) holds X exactly when
bit x + 4y + 16z is set; no winning line is monochromatic. -/
def drawCode : Nat := 5576339030587780379

/-- A full 4×4×4 board with no winner. -/
def fullDrawPattern : Board := fun i j k =>
  some (if Nat.testBit drawCode ((i : Nat) + 4 * (j : Nat) + 16 * (k : Nat))
    then Player.X else Player.O)

/-- The same drawn board with the cell (0,0,0) still empty. -/
def board63 : Board := fun i j k =>
  if (i : Nat) = 0 ∧ (j : Nat) = 0 ∧ (k : Nat) = 0 then none
  else fullDrawPattern i j k

/-- A playing state holding 63 marks, one move away from a draw. -/
def drawDemoState : ExtendedGameState where
  board := board63
  currentPlayer := Player.X
  status := GameStatus.playing
  winningLine := none
  moveCount := 63
  moveHistory := []
  threats := []
  lastMovePosition := none

/-- Witness for C4: placing the 64th mark on the concrete drawn board
yields status `draw`. -/
theorem makeMove_lastCell_draw_iff_witness :
    drawDemoState.moveCount = 63
    ∧ countNonEmpty drawDemoState.board = 63
    ∧ (makeMove drawDemoState ⟨0, 0, 0⟩ 0).status = GameStatus.draw := by
  refine ⟨rfl, by decide, ?_⟩
  exact (makeMove_lastCell_draw_iff drawDemoState ⟨0, 0, 0⟩ 0 (by decide)
    (by decide) (by decide) (by decide) (by decide) rfl (by decide)).1.mpr
    (by decide)

/-! ## Threats after a win (C7) -/

/-- A board where X has already won the row y = 0, z = 0 and also holds
three cells of the still-open line y = 1, z = 1. -/
def wonWithThreatBoard : Board := fun i j k =>
  if ((j : Nat) = 0 ∧ (k : Nat) = 0) ∨
     ((i : Nat) < 3 ∧ (j : Nat) = 1 ∧ (k : Nat) = 1) then some Player.X
  else none

/-- Counterexample for C7 as stated: `detectThreats` can return entries
on a board where `checkWinner` is non-none (it never consults the
winner). -/
theorem detectThreats_after_win_counterexample :
    checkWinner wonWithThreatBoard ≠ none
    ∧ detectThreats wonWithThreatBoard ≠ [] := by
  constructor
  · decide
  · decide

/-- C7 (amended): the threat set stored in a state produced by an
accepted `makeMove` whose resulting status is `win` is empty (the state
manager clears threats once a winner is found; the raw `detectThreats`
function itself has no such guarantee). -/
theorem makeMove_win_threats_empty (s : ExtendedGameState) (p : Position)
    (now : Nat)
    (hstat : s.status = GameStatus.playing)
    (hempty : getCell s.board p = none)
    (hwin : (makeMove s p now).status = GameStatus.win) :
    (makeMove s p now).threats = [] := by
  rw [makeMove_accepted s p now hstat hempty] at hwin ⊢
  dsimp only at hwin ⊢
  cases hw : checkWinner (setCell s.board p s.currentPlayer) with
  | some w => simp [hw]
  | none =>
    rw [hw] at hwin
    by_cases hc : s.moveCount + 1 = 64
    · rw [if_pos hc] at hwin
      exact absurd hwin (by decide)
    · rw [if_neg hc] at hwin
      exact absurd hwin (by decide)

/-- The game of `winDemoState` one move before X wins. -/
def winDemoPrefix : ExtendedGameState :=
  makeMove (makeMove (makeMove (makeMove (makeMove (makeMove
    createInitialState ⟨0, 0, 0⟩ 0) ⟨0, 1, 1⟩ 1) ⟨1, 0, 0⟩ 2) ⟨1, 1, 1⟩ 3)
    ⟨2, 0, 0⟩ 4) ⟨2, 1, 1⟩ 5

/-- Witness for C7 (amended) at a concrete game: the winning 7th move
produces a state with an empty threat set. -/
theorem makeMove_win_threats_empty_witness :
    (makeMove winDemoPrefix ⟨3, 0, 0⟩ 6).threats = [] :=
  makeMove_win_threats_empty winDemoPrefix ⟨3, 0, 0⟩ 6 (by decide) (by decide)
    (by decide)

/-! ## Characterization of checkWinner (C1) -/

lemma mem_ALL_ne_nil : ∀ l ∈ ALL_WINNING_LINES, l ≠ [] := by decide

lemma checkLine_eq_some_iff (b : Board) (line : List Position) (pl : Player)
    (hne : line ≠ []) :
    checkLine b line = some pl ↔ ∀ q ∈ line, getCell b q = some pl := by
  cases line with
  | nil => exact absurd rfl hne
  | cons p0 rest =>
    unfold checkLine
    cases h0 : getCell b p0 with
    | none =>
      simp only [h0]
      constructor
      · intro h
        exact absurd h (by simp)
      · intro h
        exact absurd (h p0 (List.mem_cons_self p0 rest)) (by simp [h0])
    | some pl0 =>
      simp only [h0]
      by_cases hall : ∀ q ∈ rest, getCell b q = some pl0
      · rw [if_pos]
        · constructor
          · intro h
            have hpl : pl0 = pl := by simpa using h
            subst hpl
            intro q hq
            rcases List.mem_cons.mp hq with hq0 | hqr
            · rw [hq0]; exact h0
            · exact hall q hqr
          · intro h
            have := h p0 (List.mem_cons_self p0 rest)
            rw [h0] at this
            simpa using this
        · rw [List.all_eq_true]
          intro q hq
          simp [hall q hq]
      · rw [if_neg]
        · constructor
          · intro h
            exact absurd h (by simp)
          · intro h
            have hpp : pl = pl0 := by
              have := h p0 (List.mem_cons_self p0 rest)
              rw [h0] at this
              simpa using this.symm
            exact absurd (fun q hq => hpp ▸ h q (List.mem_cons_of_mem p0 hq))
              hall
        · rw [List.all_eq_true]
          intro hcon
          apply hall
          intro q hq
          simpa using hcon q hq

lemma checkLine_eq_none_iff (b : Board) (line : List Position)
    (hne : line ≠ []) :
    checkLine b line = none ↔
      ¬ ∃ pl : Player, ∀ q ∈ line, getCell b q = some pl := by
  constructor
  · rintro h ⟨pl, hpl⟩
    have := (checkLine_eq_some_iff b line pl hne).mpr hpl
    rw [h] at this
    exact absurd this (by simp)
  · intro h
    cases hcl : checkLine b line with
    | none => rfl
    | some pl =>
      exact absurd ⟨pl, (checkLine_eq_some_iff b line pl hne).mp hcl⟩ h

lemma findWinningLine_none_iff (b : Board) (ls : List (List Position)) :
    findWinningLine b ls = none ↔ ∀ l ∈ ls, checkLine b l = none := by
  induction ls with
  | nil => simp [findWinningLine]
  | cons l ls ih =>
    cases h : checkLine b l with
    | some pl =>
      simp only [findWinningLine, h]
      constructor
      · intro hcon
        exact absurd hcon (by simp)
      · intro hall
        have := hall l (List.mem_cons_self l ls)
        rw [h] at this
        exact absurd this (by simp)
    | none =>
      simp only [findWinningLine, h]
      rw [ih]
      constructor
      · intro hall l' hl'
        rcases List.mem_cons.mp hl' with h1 | h2
        · rw [h1]; exact h
        · exact hall l' h2
      · intro hall l' hl'
        exact hall l' (List.mem_cons_of_mem l hl')

lemma findWinningLine_some_iff (b : Board) (ls : List (List Position))
    (w : WinningLine) :
    findWinningLine b ls = some w ↔
      ∃ pre post, ls = pre ++ w.positions :: post
        ∧ (∀ l ∈ pre, checkLine b l = none)
        ∧ checkLine b w.positions = some w.winner := by
  induction ls with
  | nil =>
    simp only [findWinningLine]
    constructor
    · intro hcon
      exact absurd hcon (by simp)
    · rintro ⟨pre, post, hsplit, -, -⟩
      exact absurd hsplit (by cases pre <;> simp)
  | cons l ls ih =>
    cases h : checkLine b l with
    | some pl =>
      simp only [findWinningLine, h]
      constructor
      · intro hw
        have hw' : w = ⟨l, pl⟩ := by
          have := Option.some.inj hw
          exact this.symm
        subst hw'
        exact ⟨[], ls, rfl, by simp, h⟩
      · rintro ⟨pre, post, hsplit, hpre, hcl⟩
        cases pre with
        | nil =>
          simp only [List.nil_append, List.cons.injEq] at hsplit
          obtain ⟨hl, hls⟩ := hsplit
          rw [← hl] at hcl
          rw [h] at hcl
          have hpl : pl = w.winner := Option.some.inj hcl
          have hw2 : (⟨l, pl⟩ : WinningLine) = w := by
            cases w with
            | mk pos win =>
              simp only [WinningLine.mk.injEq]
              exact ⟨hl, hpl⟩
          exact congrArg some hw2
        | cons l' pre' =>
          simp only [List.cons_append, List.cons.injEq] at hsplit
          obtain ⟨hl, -⟩ := hsplit
          have := hpre l' (List.mem_cons_self l' pre')
          rw [← hl] at this
          rw [h] at this
          exact absurd this (by simp)
    | none =>
      simp only [findWinningLine, h]
      rw [ih]
      constructor
      · rintro ⟨pre, post, hsplit, hpre, hcl⟩
        refine ⟨l :: pre, post, by rw [hsplit, List.cons_append], ?_, hcl⟩
        intro l' hl'
        rcases List.mem_cons.mp hl' with h1 | h2
        · rw [h1]; exact h
        · exact hpre l' h2
      · rintro ⟨pre, post, hsplit, hpre, hcl⟩
        cases pre with
        | nil =>
          simp only [List.nil_append, List.cons.injEq] at hsplit
          obtain ⟨hl, -⟩ := hsplit
          rw [← hl] at hcl
          rw [h] at hcl
          exact absurd hcl (by simp)
        | cons l' pre' =>
          simp only [List.cons_append, List.cons.injEq] at hsplit
          obtain ⟨-, hls⟩ := hsplit
          refine ⟨pre', post, hls, ?_, hcl⟩
          intro l'' hl''
          exact hpre l'' (List.mem_cons_of_mem l' hl'')

/-- C1: `checkWinner` returns no line exactly when no precomputed line
is fully owned; when it returns a line, the 4 cells all hold the
returned winner's mark and the line is the first fully-owned line in
generation order. -/
theorem checkWinner_spec (b : Board) :
    (checkWinner b = none ↔
      ∀ line ∈ ALL_WINNING_LINES,
        ¬ ∃ pl : Player, ∀ q ∈ line, getCell b q = some pl)
    ∧ (∀ w : WinningLine, checkWinner b = some w →
        w.positions ∈ ALL_WINNING_LINES
        ∧ (∀ q ∈ w.positions, getCell b q = some w.winner)
        ∧ ∃ pre post, ALL_WINNING_LINES = pre ++ w.positions :: post
            ∧ ∀ l ∈ pre, ¬ ∃ pl : Player, ∀ q ∈ l, getCell b q = some pl) := by
  constructor
  · rw [checkWinner, findWinningLine_none_iff]
    constructor
    · intro h line hline
      exact (checkLine_eq_none_iff b line (mem_ALL_ne_nil line hline)).mp
        (h line hline)
    · intro h line hline
      exact (checkLine_eq_none_iff b line (mem_ALL_ne_nil line hline)).mpr
        (h line hline)
  · intro w hw
    obtain ⟨pre, post, hsplit, hpre, hcl⟩ :=
      (findWinningLine_some_iff b ALL_WINNING_LINES w).mp hw
    have hmem : w.positions ∈ ALL_WINNING_LINES := by
      rw [hsplit]
      exact List.mem_append_right pre (List.mem_cons_self _ post)
    refine ⟨hmem,
      (checkLine_eq_some_iff b w.positions w.winner
        (mem_ALL_ne_nil _ hmem)).mp hcl,
      pre, post, hsplit, ?_⟩
    intro l hl
    have hlmem : l ∈ ALL_WINNING_LINES := by
      rw [hsplit]
      exact List.mem_append_left _ hl
    exact (checkLine_eq_none_iff b l (mem_ALL_ne_nil l hlmem)).mp (hpre l hl)

/-- A board holding only X's completed row y = 0, z = 0. -/
def rowWinBoard : Board := fun _ j k =>
  if (j : Nat) = 0 ∧ (k : Nat) = 0 then some Player.X else none

/-- Witness for C1: on the concrete board `rowWinBoard`, the winner
returned by `checkWinner` owns all four cells of the returned line. -/
theorem checkWinner_spec_witness :
    ∀ q ∈ [Position.mk 0 0 0, Position.mk 1 0 0, Position.mk 2 0 0,
      Position.mk 3 0 0], getCell rowWinBoard q = some Player.X :=
  ((checkWinner_spec rowWinBoard).2
    ⟨[Position.mk 0 0 0, Position.mk 1 0 0, Position.mk 2 0 0,
      Position.mk 3 0 0], Player.X⟩ (by decide)).2.1

/-! ## Characterization of detectThreats (C3) -/

lemma mem_ALL_length_four : ∀ l ∈ ALL_WINNING_LINES, l.length = 4 := by decide

lemma counts_partition (b : Board) (line : List Position) :
    countMarks b line Player.X + countMarks b line Player.O
      + countEmpty b line = line.length := by
  unfold countMarks countEmpty
  induction line with
  | nil => simp
  | cons q rest ih =>
    simp only [List.countP_cons, List.length_cons]
    cases h : getCell b q with
    | none => simp [h]; omega
    | some pl => cases pl <;> simp [h] <;> omega

lemma lastEmpty_go_eq_none (b : Board) (line : List Position)
    (acc : Option Position) :
    line.foldl (fun a q => if getCell b q = none then some q else a) acc = none
      ↔ acc = none ∧ ∀ q ∈ line, getCell b q ≠ none := by
  induction line generalizing acc with
  | nil => simp
  | cons q rest ih =>
    simp only [List.foldl_cons]
    by_cases h : getCell b q = none
    · rw [if_pos h, ih]
      simp [h]
    · rw [if_neg h, ih]
      constructor
      · rintro ⟨ha, hall⟩
        refine ⟨ha, ?_⟩
        intro q' hq'
        rcases List.mem_cons.mp hq' with h1 | h2
        · rw [h1]; exact h
        · exact hall q' h2
      · rintro ⟨ha, hall⟩
        exact ⟨ha, fun q' hq' => hall q' (List.mem_cons_of_mem q hq')⟩

lemma lastEmpty_go_eq_some (b : Board) (line : List Position)
    (acc : Option Position) (e : Position) :
    line.foldl (fun a q => if getCell b q = none then some q else a) acc
        = some e →
      (e ∈ line ∧ getCell b e = none) ∨ acc = some e := by
  induction line generalizing acc with
  | nil => intro h; exact Or.inr h
  | cons q rest ih =>
    intro h
    simp only [List.foldl_cons] at h
    by_cases hq : getCell b q = none
    · rw [if_pos hq] at h
      rcases ih (some q) h with ⟨hm, hc⟩ | hacc
      · exact Or.inl ⟨List.mem_cons_of_mem q hm, hc⟩
      · have : q = e := Option.some.inj hacc
        exact Or.inl ⟨this ▸ List.mem_cons_self q rest, this ▸ hq⟩
    · rw [if_neg hq] at h
      rcases ih acc h with ⟨hm, hc⟩ | hacc
      · exact Or.inl ⟨List.mem_cons_of_mem q hm, hc⟩
      · exact Or.inr hacc

lemma lastEmpty_eq_some_of_mem (b : Board) (line : List Position)
    (e : Position) (he : lastEmpty b line = some e) :
    e ∈ line ∧ getCell b e = none := by
  rcases lastEmpty_go_eq_some b line none e he with h | h
  · exact h
  · exact absurd h (by simp)

lemma eq_of_countP_eq_one {α : Type} (p : α → Bool) (l : List α)
    (h : l.countP p = 1) {a b : α} (ha : a ∈ l) (hpa : p a = true)
    (hb : b ∈ l) (hpb : p b = true) : a = b := by
  rw [List.countP_eq_length_filter] at h
  obtain ⟨x, hx⟩ := List.length_eq_one.mp h
  have hma : a ∈ l.filter p := List.mem_filter.mpr ⟨ha, hpa⟩
  have hmb : b ∈ l.filter p := List.mem_filter.mpr ⟨hb, hpb⟩
  rw [hx] at hma hmb
  simp only [List.mem_singleton] at hma hmb
  rw [hma, hmb]

lemma lastEmpty_unique (b : Board) (line : List Position)
    (h1 : countEmpty b line = 1) (e : Position) (hmem : e ∈ line)
    (hcell : getCell b e = none) : lastEmpty b line = some e := by
  cases hle : lastEmpty b line with
  | none =>
    have := (lastEmpty_go_eq_none b line none).mp hle
    exact absurd hcell (this.2 e hmem)
  | some e' =>
    obtain ⟨hm', hc'⟩ := lastEmpty_eq_some_of_mem b line e' hle
    have : e' = e := by
      apply eq_of_countP_eq_one _ line h1 hm' _ hmem _
      · simp [hc']
      · simp [hcell]
    rw [this]

lemma mem_lineThreats_iff (b : Board) (line : List Position)
    (h4 : line.length = 4) (t : Threat) :
    t ∈ lineThreats b line ↔
      t.line = line
      ∧ countMarks b line t.player = 3
      ∧ countMarks b line t.player.other = 0
      ∧ countEmpty b line = 1
      ∧ t.emptyCell ∈ line ∧ getCell b t.emptyCell = none := by
  have hpart := counts_partition b line
  rw [h4] at hpart
  unfold lineThreats
  cases hle : lastEmpty b line with
  | none =>
    simp only [List.not_mem_nil, false_iff]
    rintro ⟨-, -, -, -, hmem, hcell⟩
    have := (lastEmpty_go_eq_none b line none).mp hle
    exact absurd hcell (this.2 t.emptyCell hmem)
  | some e =>
    obtain ⟨hem, hec⟩ := lastEmpty_eq_some_of_mem b line e hle
    dsimp only
    constructor
    · intro ht
      by_cases hX : countMarks b line Player.X = 3 ∧ countMarks b line Player.O = 0
      · rw [if_pos hX] at ht
        have hteq : t = ⟨Player.X, line, e⟩ := List.mem_singleton.mp ht
        rw [hteq]
        refine ⟨rfl, hX.1, hX.2, by omega, hem, hec⟩
      · rw [if_neg hX] at ht
        by_cases hO : countMarks b line Player.O = 3
            ∧ countMarks b line Player.X = 0
        · rw [if_pos hO] at ht
          have hteq : t = ⟨Player.O, line, e⟩ := List.mem_singleton.mp ht
          rw [hteq]
          refine ⟨rfl, hO.1, hO.2, by omega, hem, hec⟩
        · rw [if_neg hO] at ht
          exact absurd ht (List.not_mem_nil t)
    · rintro ⟨htl, h3, h0, h1, hmem, hcell⟩
      have hee : e = t.emptyCell := by
        have := lastEmpty_unique b line h1 t.emptyCell hmem hcell
        rw [hle] at this
        exact Option.some.inj this
      cases hpl : t.player with
      | X =>
        have hcond : countMarks b line Player.X = 3
            ∧ countMarks b line Player.O = 0 := by
          rw [hpl] at h3 h0
          exact ⟨h3, h0⟩
        rw [if_pos hcond]
        apply List.mem_singleton.mpr
        cases t with
        | mk pl li ec =>
          simp only at hpl htl hee
          rw [hpl, htl, hee]
      | O =>
        have hcond : countMarks b line Player.O = 3
            ∧ countMarks b line Player.X = 0 := by
          rw [hpl] at h3 h0
          exact ⟨h3, h0⟩
        have hnX : ¬ (countMarks b line Player.X = 3
            ∧ countMarks b line Player.O = 0) := by
          rintro ⟨hx3, -⟩
          rw [hcond.2] at hx3
          exact absurd hx3 (by decide)
        rw [if_neg hnX, if_pos hcond]
        apply List.mem_singleton.mpr
        cases t with
        | mk pl li ec =>
          simp only at hpl htl hee
          rw [hpl, htl, hee]

/-- C3: `detectThreats` emits a threat for a precomputed line exactly
when one player owns 3 of its cells, the opponent none, and exactly one
cell is empty; the emitted threat names that player, that line and its
single empty cell. -/
theorem detectThreats_spec (b : Board) (t : Threat) :
    t ∈ detectThreats b ↔
      t.line ∈ ALL_WINNING_LINES
      ∧ countMarks b t.line t.player = 3
      ∧ countMarks b t.line t.player.other = 0
      ∧ countEmpty b t.line = 1
      ∧ t.emptyCell ∈ t.line ∧ getCell b t.emptyCell = none := by
  rw [detectThreats, List.mem_flatMap]
  constructor
  · rintro ⟨line, hline, ht⟩
    have h := (mem_lineThreats_iff b line (mem_ALL_length_four line hline) t).mp ht
    obtain ⟨htl, h3, h0, h1, hmem, hcell⟩ := h
    rw [← htl] at hline h3 h0 h1 hmem
    exact ⟨hline, h3, h0, h1, hmem, hcell⟩
  · rintro ⟨hline, h3, h0, h1, hmem, hcell⟩
    exact ⟨t.line, hline,
      (mem_lineThreats_iff b t.line (mem_ALL_length_four t.line hline) t).mpr
        ⟨rfl, h3, h0, h1, hmem, hcell⟩⟩

/-- A board where X holds 3 cells of the row y = 0, z = 0 and nothing
else. -/
def rowThreatBoard : Board := fun i j k =>
  if (i : Nat) < 3 ∧ (j : Nat) = 0 ∧ (k : Nat) = 0 then some Player.X else none

/-- Witness for C3: on the concrete 3-in-a-row board, the threat for X
at empty cell (3,0,0) is emitted. -/
theorem detectThreats_spec_witness :
    (⟨Player.X,
      [Position.mk 0 0 0, Position.mk 1 0 0, Position.mk 2 0 0,
        Position.mk 3 0 0], Position.mk 3 0 0⟩ : Threat)
      ∈ detectThreats rowThreatBoard :=
  (detectThreats_spec rowThreatBoard _).mpr (by decide)

/-! ## Move/undo round trip (C5) -/

/-- A state reached by one timer skip from the initial state, with a
corrupted move count: its board is (vacuously) the replay of its
history's real moves, yet undo-after-move does not restore
`currentPlayer` (the skip perturbed alternation) nor `moveCount`. -/
def roundTripCounterState : ExtendedGameState :=
  { skipTurn createInitialState 0 with moveCount := 5 }

/-- Counterexample for C5 as stated: a state whose board is exactly the
replay of its history's move entries, on which `makeMove` places a mark
with non-win result, but `undoMove` after `makeMove` restores neither
the move count nor the current player. -/
theorem makeMove_undo_roundTrip_counterexample :
    roundTripCounterState.board
      = replayBoard (appliedMoves roundTripCounterState.moveHistory)
    ∧ roundTripCounterState.status = GameStatus.playing
    ∧ getCell roundTripCounterState.board ⟨0, 0, 0⟩ = none
    ∧ (makeMove roundTripCounterState ⟨0, 0, 0⟩ 1).status ≠ GameStatus.win
    ∧ (undoMove (makeMove roundTripCounterState ⟨0, 0, 0⟩ 1)).moveCount
        ≠ roundTripCounterState.moveCount
    ∧ (undoMove (makeMove roundTripCounterState ⟨0, 0, 0⟩ 1)).currentPlayer
        ≠ roundTripCounterState.currentPlayer := by
  refine ⟨by decide, by decide, by decide, by decide, by decide, by decide⟩

/-- C5 (amended): the round trip restores board, move count and current
player provided the state is history-consistent: its board is the replay
of its applied (non-skip, positioned) history entries, its move count is
their number, and its current player is the opponent of the last such
entry's player (X when none, as `undoMove` computes it; a skip entry
appended after the last real move breaks the original claim). -/
theorem makeMove_undo_roundTrip (s : ExtendedGameState) (p : Position)
    (now : Nat)
    (hb : s.board = replayBoard (appliedMoves s.moveHistory))
    (hmc : s.moveCount = (appliedMoves s.moveHistory).length)
    (hcp : s.currentPlayer =
      (match (appliedMoves s.moveHistory).getLast? with
        | some m => m.player.other
        | none => Player.X))
    (hstat : s.status = GameStatus.playing)
    (hempty : getCell s.board p = none)
    (hnw : (makeMove s p now).status ≠ GameStatus.win) :
    (undoMove (makeMove s p now)).board = s.board
    ∧ (undoMove (makeMove s p now)).moveCount = s.moveCount
    ∧ (undoMove (makeMove s p now)).currentPlayer = s.currentPlayer := by
  rw [makeMove_accepted s p now hstat hempty] at hnw ⊢
  rw [undoMove_active _ (by simp) hnw]
  dsimp only
  rw [List.dropLast_concat]
  exact ⟨hb.symm, hmc.symm, hcp.symm⟩

/-- Witness for C5 at a concrete game: after X plays (0,0,0) and O
plays (1,1,1), undoing restores the one-move state's board, move count
and current player. -/
theorem makeMove_undo_roundTrip_witness :
    (undoMove (makeMove (makeMove createInitialState ⟨0, 0, 0⟩ 0)
        ⟨1, 1, 1⟩ 1)).board
      = (makeMove createInitialState ⟨0, 0, 0⟩ 0).board
    ∧ (undoMove (makeMove (makeMove createInitialState ⟨0, 0, 0⟩ 0)
        ⟨1, 1, 1⟩ 1)).moveCount
      = (makeMove createInitialState ⟨0, 0, 0⟩ 0).moveCount
    ∧ (undoMove (makeMove (makeMove createInitialState ⟨0, 0, 0⟩ 0)
        ⟨1, 1, 1⟩ 1)).currentPlayer
      = (makeMove createInitialState ⟨0, 0, 0⟩ 0).currentPlayer :=
  makeMove_undo_roundTrip (makeMove createInitialState ⟨0, 0, 0⟩ 0)
    ⟨1, 1, 1⟩ 1 (by decide) (by decide) (by decide) (by decide) (by decide)
    (by decide)

/-! ## Live play as an event sequence (C8) -/

/-- An external input during live play: a click on a cell (always an
in-range position) or a timer expiry. -/
inductive GameEvent where
  | play (i j k : Fin 4) (now : Nat) : GameEvent
  | timeout (now : Nat) : GameEvent

/-- Dispatch one live event to the engine. -/
def stepEvent (s : ExtendedGameState) (e : GameEvent) : ExtendedGameState :=
  match e with
  | .play i j k now => makeMove s ⟨(i : Nat), (j : Nat), (k : Nat)⟩ now
  | .timeout now => skipTurn s now

/-- The live state after a sequence of events from a fresh game. -/
def playEvents (evs : List GameEvent) : ExtendedGameState :=
  evs.foldl stepEvent createInitialState

/-- Replaying a list of recorded moves from scratch
(`buildStateFromMoves` with the full count). -/
def replayState (ms : List Move) : ExtendedGameState :=
  ms.foldl applyRecordedMove createInitialState

lemma appliedMoves_append (h1 h2 : List Move) :
    appliedMoves (h1 ++ h2) = appliedMoves h1 ++ appliedMoves h2 :=
  List.filter_append h1 h2

lemma appliedMoves_moveEntry (pl : Player) (p : Position) (now : Nat) :
    appliedMoves [⟨pl, some p, now, some MoveType.move, none⟩]
      = [⟨pl, some p, now, some MoveType.move, none⟩] := by
  simp [appliedMoves]

lemma appliedMoves_skipEntry (pl : Player) (now : Nat) :
    appliedMoves [⟨pl, none, now, some MoveType.skip,
      some SkipReason.timeout⟩] = [] := by
  simp [appliedMoves]

lemma stepEvent_history (s : ExtendedGameState) (e : GameEvent) :
    ∃ ext, (stepEvent s e).moveHistory = s.moveHistory ++ ext := by
  cases e with
  | play i j k now =>
    by_cases h : s.status ≠ GameStatus.playing
        ∨ getCell s.board ⟨(i : Nat), (j : Nat), (k : Nat)⟩ ≠ none
    · exact ⟨[], by rw [stepEvent, makeMove_blocked s _ now h]; simp⟩
    · push_neg at h
      exact ⟨_, by rw [stepEvent, makeMove_accepted s _ now h.1 h.2]⟩
  | timeout now =>
    by_cases h : s.status ≠ GameStatus.playing
    · exact ⟨[], by rw [stepEvent, skipTurn, if_pos h]; simp⟩
    · exact ⟨_, by rw [stepEvent, skipTurn, if_neg h]⟩

lemma foldl_stepEvent_history (evs : List GameEvent) (s : ExtendedGameState) :
    ∃ ext, (evs.foldl stepEvent s).moveHistory = s.moveHistory ++ ext := by
  induction evs generalizing s with
  | nil => exact ⟨[], by simp⟩
  | cons e evs ih =>
    obtain ⟨e1, h1⟩ := stepEvent_history s e
    obtain ⟨e2, h2⟩ := ih (stepEvent s e)
    exact ⟨e1 ++ e2, by rw [List.foldl_cons, h2, h1, List.append_assoc]⟩

/-- Replay agrees with a live state on board, status and move count. -/
def ReplayAgrees (s : ExtendedGameState) : Prop :=
  (replayState (appliedMoves s.moveHistory)).board = s.board
  ∧ (replayState (appliedMoves s.moveHistory)).status = s.status
  ∧ (replayState (appliedMoves s.moveHistory)).moveCount = s.moveCount

lemma replayState_append_one (ms : List Move) (m : Move) :
    replayState (ms ++ [m]) = applyRecordedMove (replayState ms) m := by
  simp [replayState, List.foldl_append]

lemma makeMove_congr (s1 s2 : ExtendedGameState) (p : Position)
    (now1 now2 : Nat)
    (hb : s1.board = s2.board) (hcp : s1.currentPlayer = s2.currentPlayer)
    (hmc : s1.moveCount = s2.moveCount)
    (hstat1 : s1.status = GameStatus.playing)
    (hstat2 : s2.status = GameStatus.playing)
    (hempty : getCell s1.board p = none) :
    (makeMove s1 p now1).board = (makeMove s2 p now2).board
    ∧ (makeMove s1 p now1).status = (makeMove s2 p now2).status
    ∧ (makeMove s1 p now1).moveCount = (makeMove s2 p now2).moveCount := by
  rw [makeMove_accepted s1 p now1 hstat1 hempty,
    makeMove_accepted s2 p now2 hstat2 (hb ▸ hempty)]
  dsimp only
  rw [hb, hcp, hmc]
  exact ⟨rfl, rfl, rfl⟩

lemma replayAgrees_step (s : ExtendedGameState) (e : GameEvent)
    (ih : ReplayAgrees s) : ReplayAgrees (stepEvent s e) := by
  obtain ⟨hb, hs, hm⟩ := ih
  cases e with
  | timeout now =>
    rw [stepEvent, skipTurn]
    by_cases h : s.status ≠ GameStatus.playing
    · rw [if_pos h]
      exact ⟨hb, hs, hm⟩
    · rw [if_neg h]
      refine ⟨?_, ?_, ?_⟩ <;>
        simp only [appliedMoves_append, appliedMoves_skipEntry,
          List.append_nil] <;> assumption
  | play i j k now =>
    rw [stepEvent]
    by_cases h : s.status ≠ GameStatus.playing
        ∨ getCell s.board ⟨(i : Nat), (j : Nat), (k : Nat)⟩ ≠ none
    · rw [makeMove_blocked s _ now h]
      exact ⟨hb, hs, hm⟩
    · push_neg at h
      obtain ⟨hstat, hempty⟩ := h
      have hist : (makeMove s ⟨(i : Nat), (j : Nat), (k : Nat)⟩ now).moveHistory
          = s.moveHistory ++ [⟨s.currentPlayer,
              some ⟨(i : Nat), (j : Nat), (k : Nat)⟩, now,
              some MoveType.move, none⟩] := by
        rw [makeMove_accepted s _ now hstat hempty]
      have hrepl : replayState (appliedMoves
            (makeMove s ⟨(i : Nat), (j : Nat), (k : Nat)⟩ now).moveHistory)
          = makeMove { replayState (appliedMoves s.moveHistory) with
              currentPlayer := s.currentPlayer }
            ⟨(i : Nat), (j : Nat), (k : Nat)⟩ 0 := by
        rw [hist, appliedMoves_append, appliedMoves_moveEntry,
          replayState_append_one]
        rfl
      have hstat1 : (replayState (appliedMoves s.moveHistory)).status
          = GameStatus.playing := by rw [hs, hstat]
      have hempty1 : getCell (replayState (appliedMoves s.moveHistory)).board
          ⟨(i : Nat), (j : Nat), (k : Nat)⟩ = none := by
        rw [hb]
        exact hempty
      have hcongr := makeMove_congr
        { replayState (appliedMoves s.moveHistory) with
            currentPlayer := s.currentPlayer }
        s ⟨(i : Nat), (j : Nat), (k : Nat)⟩ 0 now hb rfl hm hstat1 hstat
        hempty1
      unfold ReplayAgrees
      rw [hrepl]
      exact hcongr

lemma playEvents_replayAgrees (evs : List GameEvent) :
    ReplayAgrees (playEvents evs) := by
  induction evs using List.reverseRecOn with
  | nil => exact ⟨rfl, rfl, rfl⟩
  | append_singleton evs e ih =>
    rw [playEvents, List.foldl_append, List.foldl_cons, List.foldl_nil]
    exact replayAgrees_step (playEvents evs) e ih

/-- C8: replay reconstruction.  For any split of a live game's event
sequence, rebuilding from the first K recorded real moves of the full
history (K being the number of real moves made up to the split point)
reproduces exactly the live board at the split point, regardless of how
skip entries were interleaved. -/
theorem replay_reconstruction (evs1 evs2 : List GameEvent) :
    (buildStateFromMoves
        (appliedMoves (playEvents (evs1 ++ evs2)).moveHistory)
        (appliedMoves (playEvents evs1).moveHistory).length).board
      = (playEvents evs1).board := by
  obtain ⟨ext, hext⟩ := foldl_stepEvent_history evs2 (playEvents evs1)
  have hfull : (playEvents (evs1 ++ evs2)).moveHistory
      = (playEvents evs1).moveHistory ++ ext := by
    rw [playEvents, List.foldl_append]
    exact hext
  rw [hfull, appliedMoves_append, buildStateFromMoves, List.take_left]
  exact (playEvents_replayAgrees evs1).1

/-- Witness for C8 at a concrete game: X plays (0,0,0), O times out,
X plays (1,0,0); rebuilding from the first 2 recorded moves of the full
history matches the live board before the final move. -/
theorem replay_reconstruction_witness :
    (buildStateFromMoves
        (appliedMoves (playEvents
          ([GameEvent.play 0 0 0 0, GameEvent.timeout 1]
            ++ [GameEvent.play 1 0 0 2, GameEvent.play 1 1 1 3])).moveHistory)
        (appliedMoves (playEvents
          [GameEvent.play 0 0 0 0, GameEvent.timeout 1]).moveHistory).length).board
      = (playEvents [GameEvent.play 0 0 0 0, GameEvent.timeout 1]).board :=
  replay_reconstruction [GameEvent.play 0 0 0 0, GameEvent.timeout 1]
    [GameEvent.play 1 0 0 2, GameEvent.play 1 1 1 3]

/-! ## Reachable states and the board/history invariant (C9) -/

/-- An operation on the authoritative state: a move on an (in-range)
cell, a timer skip, or an undo. -/
inductive GameOp where
  | play (i j k : Fin 4) (now : Nat) : GameOp
  | timeout (now : Nat) : GameOp
  | undo : GameOp

def stepOp (s : ExtendedGameState) (op : GameOp) : ExtendedGameState :=
  match op with
  | .play i j k now => makeMove s ⟨(i : Nat), (j : Nat), (k : Nat)⟩ now
  | .timeout now => skipTurn s now
  | .undo => undoMove s

/-- The state reached from a fresh game by a sequence of operations. -/
def runOps (ops : List GameOp) : ExtendedGameState :=
  ops.foldl stepOp createInitialState

lemma getCell_empty (q : Position) : getCell createEmptyBoard q = none := by
  unfold getCell createEmptyBoard
  repeat' split
  all_goals rfl

lemma getCell_fin (b : Board) (i j k : Fin 4) :
    getCell b ⟨(i : Nat), (j : Nat), (k : Nat)⟩ = b i j k := by
  unfold getCell
  rw [dif_pos i.isLt, dif_pos j.isLt, dif_pos k.isLt]

lemma countNonEmpty_emptyBoard : countNonEmpty createEmptyBoard = 0 := by
  unfold countNonEmpty nonEmptyCells createEmptyBoard
  simp

lemma getCell_applyMoves_iff (ms : List Move) : ∀ (b : Board) (q : Position),
    q.x < 4 → q.y < 4 → q.z < 4 →
    (ms.filterMap Move.position).Nodup → ∀ pl : Player,
    (getCell (applyMoves b ms) q = some pl ↔
      (∃ m ∈ ms, m.position = some q ∧ m.player = pl)
      ∨ (getCell b q = some pl ∧ ¬ ∃ m ∈ ms, m.position = some q)) := by
  induction ms with
  | nil =>
    intro b q _ _ _ _ pl
    simp [applyMoves]
  | cons m ms ih =>
    intro b q hqx hqy hqz hnd pl
    cases hmp : m.position with
    | none =>
      have happ : applyMoves b (m :: ms) = applyMoves b ms := by
        simp [applyMoves, writeMove, hmp]
      have hnd' : (ms.filterMap Move.position).Nodup := by
        rwa [List.filterMap_cons, hmp] at hnd
      rw [happ, ih b q hqx hqy hqz hnd' pl]
      constructor
      · rintro (⟨m', hm', hp', hpl'⟩ | ⟨hcell, hnex⟩)
        · exact Or.inl ⟨m', List.mem_cons_of_mem m hm', hp', hpl'⟩
        · refine Or.inr ⟨hcell, ?_⟩
          rintro ⟨m', hm', hp'⟩
          rcases List.mem_cons.mp hm' with h1 | h2
          · rw [h1] at hp'
            rw [hmp] at hp'
            exact absurd hp' (by simp)
          · exact hnex ⟨m', h2, hp'⟩
      · rintro (⟨m', hm', hp', hpl'⟩ | ⟨hcell, hnex⟩)
        · rcases List.mem_cons.mp hm' with h1 | h2
          · rw [h1] at hp'
            rw [hmp] at hp'
            exact absurd hp' (by simp)
          · exact Or.inl ⟨m', h2, hp', hpl'⟩
        · exact Or.inr ⟨hcell, fun ⟨m', hm', hp'⟩ =>
            hnex ⟨m', List.mem_cons_of_mem m hm', hp'⟩⟩
    | some p0 =>
      have happ : applyMoves b (m :: ms)
          = applyMoves (setCell b p0 m.player) ms := by
        simp [applyMoves, writeMove, hmp]
      have hndc : (p0 :: ms.filterMap Move.position).Nodup := by
        rwa [List.filterMap_cons, hmp] at hnd
      have hp0nin : p0 ∉ ms.filterMap Move.position :=
        (List.nodup_cons.mp hndc).1
      have hnd' : (ms.filterMap Move.position).Nodup :=
        (List.nodup_cons.mp hndc).2
      rw [happ, ih (setCell b p0 m.player) q hqx hqy hqz hnd' pl]
      rw [getCell_setCell b p0 m.player q hqx hqy hqz]
      by_cases hqp : q = p0
      · subst hqp
        rw [if_pos rfl]
        have hnex : ¬ ∃ m' ∈ ms, m'.position = some q := by
          rintro ⟨m', hm', hp'⟩
          exact hp0nin (List.mem_filterMap.mpr ⟨m', hm', hp'⟩)
        constructor
        · rintro (⟨m', hm', hp', -⟩ | ⟨hcell, -⟩)
          · exact absurd ⟨m', hm', hp'⟩ hnex
          · exact Or.inl ⟨m, List.mem_cons_self m ms, hmp,
              Option.some.inj hcell⟩
        · rintro (⟨m', hm', hp', hpl'⟩ | ⟨-, hnex'⟩)
          · rcases List.mem_cons.mp hm' with h1 | h2
            · rw [h1] at hp' hpl'
              rw [hmp] at hp'
              exact Or.inr ⟨by rw [hpl'], hnex⟩
            · exact absurd ⟨m', h2, hp'⟩ hnex
          · exact absurd ⟨m, List.mem_cons_self m ms, hmp⟩ hnex'
      · rw [if_neg hqp]
        constructor
        · rintro (⟨m', hm', hp', hpl'⟩ | ⟨hcell, hnex⟩)
          · exact Or.inl ⟨m', List.mem_cons_of_mem m hm', hp', hpl'⟩
          · refine Or.inr ⟨hcell, ?_⟩
            rintro ⟨m', hm', hp'⟩
            rcases List.mem_cons.mp hm' with h1 | h2
            · rw [h1] at hp'
              rw [hmp] at hp'
              exact hqp (Option.some.inj hp').symm
            · exact hnex ⟨m', h2, hp'⟩
        · rintro (⟨m', hm', hp', hpl'⟩ | ⟨hcell, hnex⟩)
          · rcases List.mem_cons.mp hm' with h1 | h2
            · rw [h1] at hp'
              rw [hmp] at hp'
              exact absurd (Option.some.inj hp').symm hqp
            · exact Or.inl ⟨m', h2, hp', hpl'⟩
          · exact Or.inr ⟨hcell, fun ⟨m', hm', hp'⟩ =>
              hnex ⟨m', List.mem_cons_of_mem m hm', hp'⟩⟩

lemma countNonEmpty_applyMoves (ms : List Move) : ∀ b : Board,
    (ms.filterMap Move.position).Nodup →
    (∀ m ∈ ms, ∃ q, m.position = some q ∧ q.x < 4 ∧ q.y < 4 ∧ q.z < 4) →
    (∀ m ∈ ms, ∀ q, m.position = some q → getCell b q = none) →
    countNonEmpty (applyMoves b ms) = countNonEmpty b + ms.length := by
  induction ms with
  | nil =>
    intro b _ _ _
    simp [applyMoves]
  | cons m ms ih =>
    intro b hnd hpos hdisj
    obtain ⟨q, hq, hqx, hqy, hqz⟩ := hpos m (List.mem_cons_self m ms)
    have hbq : getCell b q = none := hdisj m (List.mem_cons_self m ms) q hq
    have hndc : (q :: ms.filterMap Move.position).Nodup := by
      rwa [List.filterMap_cons, hq] at hnd
    have hqnin : q ∉ ms.filterMap Move.position := (List.nodup_cons.mp hndc).1
    have hnd' : (ms.filterMap Move.position).Nodup := (List.nodup_cons.mp hndc).2
    have happ : applyMoves b (m :: ms)
        = applyMoves (setCell b q m.player) ms := by
      simp [applyMoves, writeMove, hq]
    have hdisj' : ∀ m' ∈ ms, ∀ q', m'.position = some q' →
        getCell (setCell b q m.player) q' = none := by
      intro m' hm' q' hq'
      obtain ⟨q'', hq'', hq''x, hq''y, hq''z⟩ :=
        hpos m' (List.mem_cons_of_mem m hm')
      have hqq : q'' = q' := by
        rw [hq'] at hq''
        exact (Option.some.inj hq'').symm
      subst hqq
      have hne : q'' ≠ q := by
        intro hco
        exact hqnin (hco ▸ List.mem_filterMap.mpr ⟨m', hm', hq'⟩)
      rw [getCell_setCell b q m.player q'' hq''x hq''y hq''z, if_neg hne]
      exact hdisj m' (List.mem_cons_of_mem m hm') q'' hq'
    rw [happ, ih (setCell b q m.player) hnd'
      (fun m' hm' => hpos m' (List.mem_cons_of_mem m hm')) hdisj',
      countNonEmpty_setCell b q m.player hqx hqy hqz hbq]
    simp only [List.length_cons]
    omega

/-- History consistency: the board is the replay of the applied history
entries, the move count is their number, their positions are pairwise
distinct, and every history entry is either a positioned in-range move
entry or an unpositioned skip entry. -/
def HistoryConsistent (s : ExtendedGameState) : Prop :=
  s.board = replayBoard (appliedMoves s.moveHistory)
  ∧ s.moveCount = (appliedMoves s.moveHistory).length
  ∧ ((appliedMoves s.moveHistory).filterMap Move.position).Nodup
  ∧ ∀ m ∈ s.moveHistory,
      (m.type = some MoveType.move ∧ ∃ q, m.position = some q
        ∧ q.x < 4 ∧ q.y < 4 ∧ q.z < 4)
      ∨ (m.type = some MoveType.skip ∧ m.position = none)

lemma historyConsistent_initial : HistoryConsistent createInitialState := by
  refine ⟨rfl, rfl, List.nodup_nil, ?_⟩
  intro m hm
  exact absurd hm (List.not_mem_nil m)

lemma replayBoard_append_one (ms : List Move) (m : Move) :
    replayBoard (ms ++ [m]) = writeMove (replayBoard ms) m := by
  simp [replayBoard, applyMoves, List.foldl_append]

lemma historyConsistent_step (s : ExtendedGameState) (op : GameOp)
    (ih : HistoryConsistent s) : HistoryConsistent (stepOp s op) := by
  obtain ⟨hb, hmc, hnd, hall⟩ := ih
  cases op with
  | timeout now =>
    rw [stepOp, skipTurn]
    by_cases h : s.status ≠ GameStatus.playing
    · rw [if_pos h]
      exact ⟨hb, hmc, hnd, hall⟩
    · rw [if_neg h]
      refine ⟨?_, ?_, ?_, ?_⟩
      · simpa [appliedMoves_append, appliedMoves_skipEntry] using hb
      · simpa [appliedMoves_append, appliedMoves_skipEntry] using hmc
      · simpa [appliedMoves_append, appliedMoves_skipEntry] using hnd
      · intro m hm
        dsimp only at hm
        rcases List.mem_append.mp hm with h1 | h2
        · exact hall m h1
        · have : m = ⟨s.currentPlayer, none, now, some MoveType.skip,
              some SkipReason.timeout⟩ := List.mem_singleton.mp h2
          rw [this]
          exact Or.inr ⟨rfl, rfl⟩
  | undo =>
    rw [stepOp]
    by_cases h1 : s.moveHistory = []
    · rw [undoMove_emptyHistory s h1]
      exact ⟨hb, hmc, hnd, hall⟩
    · by_cases h2 : s.status = GameStatus.win
      · rw [undoMove_winStatus s h2]
        exact ⟨hb, hmc, hnd, hall⟩
      · rw [undoMove_active s h1 h2]
        have hsub : List.Sublist (appliedMoves s.moveHistory.dropLast)
            (appliedMoves s.moveHistory) :=
          (s.moveHistory.dropLast_sublist).filter _
        refine ⟨rfl, rfl, ?_, ?_⟩
        · exact (hsub.filterMap Move.position).nodup hnd
        · intro m hm
          dsimp only at hm
          exact hall m (s.moveHistory.dropLast_sublist.subset hm)
  | play i j k now =>
    rw [stepOp]
    by_cases h : s.status ≠ GameStatus.playing
        ∨ getCell s.board ⟨(i : Nat), (j : Nat), (k : Nat)⟩ ≠ none
    · rw [makeMove_blocked s _ now h]
      exact ⟨hb, hmc, hnd, hall⟩
    · push_neg at h
      obtain ⟨hstat, hempty⟩ := h
      have hpnin : (⟨(i : Nat), (j : Nat), (k : Nat)⟩ : Position)
          ∉ (appliedMoves s.moveHistory).filterMap Move.position := by
        intro hin
        obtain ⟨m, hmA, hmp⟩ := List.mem_filterMap.mp hin
        have := (getCell_applyMoves_iff (appliedMoves s.moveHistory)
          createEmptyBoard ⟨(i : Nat), (j : Nat), (k : Nat)⟩
          i.isLt j.isLt k.isLt hnd m.player).mpr
          (Or.inl ⟨m, hmA, hmp, rfl⟩)
        rw [show applyMoves createEmptyBoard (appliedMoves s.moveHistory)
            = replayBoard (appliedMoves s.moveHistory) from rfl, ← hb,
          hempty] at this
        exact absurd this (by simp)
      rw [makeMove_accepted s _ now hstat hempty]
      refine ⟨?_, ?_, ?_, ?_⟩
      · dsimp only
        rw [appliedMoves_append, appliedMoves_moveEntry,
          replayBoard_append_one, ← hb, writeMove]
      · dsimp only
        rw [appliedMoves_append, appliedMoves_moveEntry, List.length_append,
          hmc]
        rfl
      · dsimp only
        rw [appliedMoves_append, appliedMoves_moveEntry,
          List.filterMap_append]
        have hsing : List.filterMap Move.position
            [⟨s.currentPlayer, some ⟨(i : Nat), (j : Nat), (k : Nat)⟩, now,
              some MoveType.move, none⟩]
            = [⟨(i : Nat), (j : Nat), (k : Nat)⟩] := rfl
        rw [hsing, List.nodup_append]
        exact ⟨hnd, List.nodup_singleton _, by
          intro q hq hq'
          rw [List.mem_singleton] at hq'
          exact hpnin (hq' ▸ hq)⟩
      · intro m hm
        dsimp only at hm
        rcases List.mem_append.mp hm with hmem | hmem
        · exact hall m hmem
        · have : m = ⟨s.currentPlayer,
              some ⟨(i : Nat), (j : Nat), (k : Nat)⟩, now,
              some MoveType.move, none⟩ := List.mem_singleton.mp hmem
          rw [this]
          exact Or.inl ⟨rfl, ⟨(i : Nat), (j : Nat), (k : Nat)⟩, rfl,
            i.isLt, j.isLt, k.isLt⟩

lemma runOps_historyConsistent (ops : List GameOp) :
    HistoryConsistent (runOps ops) := by
  suffices h : ∀ (l : List GameOp) (s : ExtendedGameState),
      HistoryConsistent s → HistoryConsistent (l.foldl stepOp s) by
    exact h ops createInitialState historyConsistent_initial
  intro l
  induction l with
  | nil => intro s hs; exact hs
  | cons op l ih =>
    intro s hs
    exact ih (stepOp s op) (historyConsistent_step s op hs)

/-- C9: in every state reachable by moves, undos and timer skips,
exactly `moveCount` cells are non-empty, a cell holds a player's mark
exactly when a move-kind history entry records that player at that
position, skip entries carry no position, and a skip never changes the
board or the move count. -/
theorem board_history_invariant (ops : List GameOp) :
    countNonEmpty (runOps ops).board = (runOps ops).moveCount
    ∧ (∀ (i j k : Fin 4) (pl : Player),
        (runOps ops).board i j k = some pl ↔
          ∃ m ∈ (runOps ops).moveHistory,
            m.type = some MoveType.move
            ∧ m.position = some ⟨(i : Nat), (j : Nat), (k : Nat)⟩
            ∧ m.player = pl)
    ∧ (∀ m ∈ (runOps ops).moveHistory,
        m.type = some MoveType.skip → m.position = none)
    ∧ ∀ (s : ExtendedGameState) (now : Nat),
        (skipTurn s now).board = s.board
        ∧ (skipTurn s now).moveCount = s.moveCount := by
  obtain ⟨hb, hmc, hnd, hall⟩ := runOps_historyConsistent ops
  have hposA : ∀ m ∈ appliedMoves (runOps ops).moveHistory,
      ∃ q, m.position = some q ∧ q.x < 4 ∧ q.y < 4 ∧ q.z < 4 := by
    intro m hm
    have hmem : m ∈ (runOps ops).moveHistory := List.mem_of_mem_filter hm
    have hsome : m.position.isSome = true := by
      have hpred := List.of_mem_filter hm
      exact (Bool.and_eq_true _ _ |>.mp hpred).2
    rcases hall m hmem with ⟨-, q, hq, hqb⟩ | ⟨-, hnone⟩
    · exact ⟨q, hq, hqb⟩
    · rw [hnone] at hsome
      exact absurd hsome (by simp)
  refine ⟨?_, ?_, ?_, ?_⟩
  · rw [hb, show replayBoard (appliedMoves (runOps ops).moveHistory)
        = applyMoves createEmptyBoard (appliedMoves (runOps ops).moveHistory)
        from rfl,
      countNonEmpty_applyMoves _ createEmptyBoard hnd hposA
        (fun _ _ q _ => getCell_empty q),
      countNonEmpty_emptyBoard, hmc]
    omega
  · intro i j k pl
    rw [show (runOps ops).board i j k
        = getCell (runOps ops).board ⟨(i : Nat), (j : Nat), (k : Nat)⟩
        from (getCell_fin _ i j k).symm, hb]
    rw [show replayBoard (appliedMoves (runOps ops).moveHistory)
        = applyMoves createEmptyBoard (appliedMoves (runOps ops).moveHistory)
        from rfl]
    rw [getCell_applyMoves_iff (appliedMoves (runOps ops).moveHistory)
      createEmptyBoard ⟨(i : Nat), (j : Nat), (k : Nat)⟩
      i.isLt j.isLt k.isLt hnd pl]
    constructor
    · rintro (⟨m, hmA, hmp, hmpl⟩ | ⟨hcell, -⟩)
      · refine ⟨m, List.mem_of_mem_filter hmA, ?_, hmp, hmpl⟩
        rcases hall m (List.mem_of_mem_filter hmA) with ⟨ht, -⟩ | ⟨-, hnone⟩
        · exact ht
        · rw [hnone] at hmp
          exact absurd hmp (by simp)
      · rw [getCell_empty] at hcell
        exact absurd hcell (by simp)
    · rintro ⟨m, hmem, htype, hmp, hmpl⟩
      refine Or.inl ⟨m, List.mem_filter.mpr ⟨hmem, ?_⟩, hmp, hmpl⟩
      rw [appliedMoves] at *
      simp [htype, hmp]
  · intro m hm htype
    rcases hall m hm with ⟨hmove, -⟩ | ⟨-, hnone⟩
    · rw [htype] at hmove
      exact absurd (Option.some.inj hmove) (by decide)
    · exact hnone
  · intro s' now
    rw [skipTurn]
    by_cases h : s'.status ≠ GameStatus.playing
    · rw [if_pos h]
      exact ⟨rfl, rfl⟩
    · rw [if_neg h]
      exact ⟨rfl, rfl⟩

/-- A short demo run: X moves, O times out, X moves again, undo. -/
def demoOps : List GameOp :=
  [GameOp.play 0 0 0 0, GameOp.timeout 1, GameOp.play 1 1 1 2, GameOp.undo]

/-- Witness for C9 on a concrete run mixing a move, a timer skip and an
undo: the non-empty-cell count matches the move count, and the mark at
(0,0,0) is recorded by a move-kind history entry for X. -/
theorem board_history_invariant_witness :
    countNonEmpty (runOps demoOps).board = (runOps demoOps).moveCount
    ∧ ((runOps demoOps).board 0 0 0 = some Player.X ↔
        ∃ m ∈ (runOps demoOps).moveHistory,
          m.type = some MoveType.move
          ∧ m.position = some ⟨0, 0, 0⟩ ∧ m.player = Player.X) :=
  ⟨(board_history_invariant demoOps).1,
   (board_history_invariant demoOps).2.1 0 0 0 Player.X⟩
